import Mathlib

set_option autoImplicit false

/-!
Verification of the railsmechanic/eventsource repository (Go, SSE pub/sub hub).

The development shallowly embeds the repository's core:
  - the message codec (`eventMessage`, `newEventMessage`, `Message()`),
  - the dispatcher loop (`actionDispatcher`) as a step function over an
    explicit dispatcher state,
  - the per-consumer delivery worker (`inboxDispatcher`),
  - the subscribe path (`subscribeHandler` / `newConsumer`),
  - a static model of the goroutines' accesses to the shared consumer map,
  - a small control-state model of the shutdown branch.

Go byte strings are modelled as `List Char` (the payloads involved are
ASCII newline-separated text, where Go's byte-level operations on "\n"
coincide with character-level operations), Go channels' observable actions
as explicit effect lists, and Go runtime panics (close of a closed channel,
send on a closed channel) as an explicit `panic` outcome of a step.
-/

/-- Concatenation of a list of lists, `List.join` written out so that all
membership lemmas are self-contained. -/
def flattenAll {α : Type} : List (List α) → List α
  | [] => []
  | xs :: rest => xs ++ flattenAll rest

/-- Event record (source: `eventMessage` in the codec file): numeric id,
event label, data payload, destination channel.  Field `id` is a Go `uint`,
modelled as `Nat`; arithmetic on it in the source is limited to the `> 0`
comparison in `Message()`, so no overflow modelling is needed. -/
structure EventMessage where
  id : Nat
  event : String
  data : String
  channel : String
deriving DecidableEq, Repr

/-- Name of the reserved broadcast channel (source: `globalChannel = "all"`,
eventsource.go line 19). -/
def globalChannel : String := "all"

/-- Embedding of `strings.Replace(s, "\n", "", -1)` applied in `Message()`:
every occurrence of the one-character pattern is deleted, nothing is
inserted, all other characters are kept in order. -/
def removeNl : List Char → List Char
  | [] => []
  | c :: cs => if c = '\n' then removeNl cs else c :: removeNl cs

/-- Embedding of `strings.Split(s, "\n")`: splits at every newline and keeps
empty segments; the empty input yields one empty segment, matching Go. -/
def splitNl : List Char → List (List Char)
  | [] => [[]]
  | c :: cs =>
    if c = '\n' then [] :: splitNl cs
    else
      match splitNl cs with
      | [] => [[c]]
      | seg :: rest => (c :: seg) :: rest

/-- Embedding of `(*eventMessage).Message()` (the `render` operation of the
spec): emits `id: `, `event: ` and `data: ` lines in this order, each line
only when the field is populated (`Id > 0`, `len(Event) > 0`,
`len(Data) > 0`), the id in decimal, the event label with embedded newlines
deleted, the data payload split on newline into one `data: ` line per
segment, and one final newline (the terminating blank line).  The returned
`List Char` models the returned byte slice. -/
def message (em : EventMessage) : List Char :=
  (if em.id > 0 then "id: ".data ++ (Nat.repr em.id).data ++ ['\n'] else []) ++
  (if 0 < em.event.length then "event: ".data ++ removeNl em.event.data ++ ['\n'] else []) ++
  (if 0 < em.data.length then
    flattenAll ((splitNl em.data.data).map (fun seg => "data: ".data ++ seg ++ ['\n'])) else []) ++
  ['\n']

/-- Field lines of a frame, written from the words of the specification (for
the refinement statement of claim C2): fixed order id, event, data; a field
line present exactly when the field is populated; the id rendered as a
decimal integer; newline characters of the event label removed; one `data: `
line per newline-separated segment of the payload, empty segments
included. -/
def specFieldLines (em : EventMessage) : List (List Char) :=
  (if em.id = 0 then [] else ["id: ".data ++ (Nat.repr em.id).data ++ ['\n']]) ++
  (if em.event = "" then [] else
    ["event: ".data ++ em.event.data.filter (fun c => c ≠ '\n') ++ ['\n']]) ++
  (if em.data = "" then [] else
    (splitNl em.data.data).map (fun seg => "data: ".data ++ seg ++ ['\n']))

/-- Frame as described by the specification: the field lines in order,
followed by exactly one trailing blank line. -/
def specRender (em : EventMessage) : List Char :=
  flattenAll (specFieldLines em) ++ ['\n']

/-- One field set decoded from a single JSON object of the publish payload:
for each of the three recognized fields, `some v` when the object carries the
field and `none` when it is absent.  The JSON text-level parsing is done by
the external `encoding/json` package and is not part of this repository; a
publish body is therefore modelled as the sequence of outcomes the decoder
hands back to `newEventMessage`. -/
structure JsonObj where
  id : Option Nat
  event : Option String
  data : Option String
deriving DecidableEq, Repr

/-- Outcome of one `dec.Decode(&em)` call before end of input: a decoded
object, or a malformed object (any non-EOF error). -/
inductive DecodeStep where
  | obj (o : JsonObj)
  | malformed
deriving DecidableEq, Repr

/-- Decode failure reported by `newEventMessage` (the spec's DecodeError). -/
inductive DecodeError where
  | decodeError
deriving DecidableEq, Repr

/-- Effect of `json.Decode` into the existing record `em`: fields present in
the object overwrite, fields absent are left untouched. -/
def applyObj (em : EventMessage) (o : JsonObj) : EventMessage :=
  { em with
    id := o.id.getD em.id
    event := o.event.getD em.event
    data := o.data.getD em.data }

/-- The decode loop of `newEventMessage`: repeatedly decode into the same
record; end of input breaks the loop, any other error aborts the build. -/
def decodeLoop (em : EventMessage) : List DecodeStep → Except DecodeError EventMessage
  | [] => .ok em
  | .obj o :: rest => decodeLoop (applyObj em o) rest
  | .malformed :: _ => .error .decodeError

/-- Embedding of `newEventMessage(messageStream, channel)`: starts from the
zero-valued record, runs the decode loop, then sets the channel to
`"default"` when the given name is empty and to the given name otherwise. -/
def newEventMessage (stream : List DecodeStep) (channel : String) :
    Except DecodeError EventMessage :=
  match decodeLoop ⟨0, "", "", ""⟩ stream with
  | .error e => .error e
  | .ok em => .ok { em with channel := if channel = "" then "default" else channel }

/-- Consumer (source: `consumer` in consumer.go): the topic it joined, its
expired flag, and whether its worker is currently blocked receiving on the
delivery slot (`ready` — the condition under which the dispatcher's
non-blocking send succeeds).  `cid` models the pointer identity of the Go
`*consumer`; distinct consumers have distinct cids.  The open/closed state
of the delivery slot channel is heap state shared between dispatcher steps
and is kept in `DispState.closedSlots`. -/
structure Consumer where
  cid : Nat
  channel : String
  expired : Bool
  ready : Bool
deriving DecidableEq, Repr

/-- Association-list model of the Go map `es.consumers`; keys are channel
names, values the ordered consumer lists.  A Go map has at most one entry
per key; theorems that need this carry a `Nodup` hypothesis on the keys. -/
abbrev TopicMap := List (String × List Consumer)

/-- Map lookup `es.consumers[ch]` with its `ok` flag folded into `Option`. -/
def lookupTopic : TopicMap → String → Option (List Consumer)
  | [], _ => none
  | (k, v) :: rest, ch => if k = ch then some v else lookupTopic rest ch

/-- Map assignment `es.consumers[ch] = cs`: replaces the entry when present,
creates it otherwise. -/
def setTopic : TopicMap → String → List Consumer → TopicMap
  | [], ch, cs => [(ch, cs)]
  | (k, v) :: rest, ch, cs =>
    if k = ch then (ch, cs) :: rest else (k, v) :: setTopic rest ch cs

/-- Map deletion `delete(es.consumers, ch)`. -/
def eraseTopic : TopicMap → String → TopicMap
  | [], _ => []
  | (k, v) :: rest, ch => if k = ch then rest else (k, v) :: eraseTopic rest ch

/-- Dispatcher-owned state: the consumer map plus the set of delivery slot
channels that have been closed (identified by consumer cid). -/
structure DispState where
  topics : TopicMap
  closedSlots : List Nat
deriving DecidableEq, Repr

/-- Observable channel action performed by one dispatcher step:
a delivery attempt on a consumer's slot (with whether the non-blocking send
succeeded), or the close of a consumer's slot. -/
inductive Effect where
  | tryDeliver (c : Consumer) (delivered : Bool) (em : EventMessage)
  | closeSlot (cid : Nat)
deriving DecidableEq, Repr

/-- One request multiplexed by the dispatcher's select (the five channels of
`eventSource`): publish, topic close, shutdown, consumer join, consumer
expiry. -/
inductive Request where
  | publish (em : EventMessage)
  | closeChannel (name : String)
  | stop
  | add (c : Consumer)
  | expire (c : Consumer)
deriving DecidableEq, Repr

/-- Result of processing one request: a new state with the effects
performed, a Go runtime panic (close of a closed channel, or the select
choosing a send on a closed channel), or the dispatcher blocking forever on
the shutdown branch's send to its own request channel. -/
inductive StepResult where
  | ok (s : DispState) (effects : List Effect)
  | panic
  | blockedSelfSend
deriving DecidableEq, Repr

/-- Closes the slots of the given cids in order, threading the closed set;
`none` models the `close of closed channel` runtime panic. -/
def closeSlots (closed : List Nat) : List Nat → Option (List Nat)
  | [] => some closed
  | cid :: rest => if cid ∈ closed then none else closeSlots (cid :: closed) rest

/-- Fan-out of one publish over one consumer list (source: the loop bodies of
the `messageRouter` case): skip expired consumers; for each other consumer
run `select { case cr.inbox <- em: default: }`, which succeeds exactly when
the worker is currently ready to receive, falls through to `default`
otherwise, and panics when the slot channel is already closed (a send on a
closed channel counts as ready in a Go select and panics when chosen). -/
def fanout (closed : List Nat) (em : EventMessage) : List Consumer → Option (List Effect)
  | [] => some []
  | c :: rest =>
    if c.expired then fanout closed em rest
    else if c.cid ∈ closed then none
    else
      match fanout closed em rest with
      | none => none
      | some effs => some (.tryDeliver c c.ready em :: effs)

/-- Fan-out over the lists of every topic (the `globalChannel` publish
case). -/
def fanoutAll (closed : List Nat) (em : EventMessage) : List (List Consumer) → Option (List Effect)
  | [] => some []
  | cs :: rest =>
    match fanout closed em cs, fanoutAll closed em rest with
    | some a, some b => some (a ++ b)
    | _, _ => none

/-- Publish processing (source: `case em := <-es.messageRouter`, eventsource.go
lines 274-299): the broadcast name fans out over every topic's list; any
other name fans out over the named topic's list when the map has an entry
and does nothing when it does not.  The map itself is never written. -/
def publishEffects (s : DispState) (em : EventMessage) : Option (List Effect) :=
  if em.channel = globalChannel then
    fanoutAll s.closedSlots em (s.topics.map Prod.snd)
  else
    match lookupTopic s.topics em.channel with
    | some cs => fanout s.closedSlots em cs
    | none => some []

/-- Cids of every consumer of every topic, in map order. -/
def topicCids (m : TopicMap) : List Nat :=
  flattenAll (m.map (fun p => p.2.map Consumer.cid))

/-- Topic-close processing (source: `case channel := <-es.closeChannel`,
eventsource.go lines 302-320): the broadcast name closes every member's slot
of every topic and deletes every entry; any other existing name closes its
members' slots and deletes that one entry; a missing name does nothing. -/
def closeChannelStep (s : DispState) (ch : String) : StepResult :=
  if ch = globalChannel then
    match closeSlots s.closedSlots (topicCids s.topics) with
    | some closed => .ok ⟨[], closed⟩ ((topicCids s.topics).map Effect.closeSlot)
    | none => .panic
  else
    match lookupTopic s.topics ch with
    | some cs =>
      match closeSlots s.closedSlots (cs.map Consumer.cid) with
      | some closed =>
        .ok ⟨eraseTopic s.topics ch, closed⟩ ((cs.map Consumer.cid).map Effect.closeSlot)
      | none => .panic
    | none => .ok s []

/-- Join processing (source: `case cr := <-es.addConsumer`, line 336):
append the consumer to its topic's list, creating the entry when absent
(appending to the `nil` slice of a missing map key). -/
def addStep (s : DispState) (c : Consumer) : DispState :=
  ⟨setTopic s.topics c.channel ((lookupTopic s.topics c.channel).getD [] ++ [c]),
    s.closedSlots⟩

/-- Expiry processing (source: `case expiredConsumer := <-es.expireConsumer`,
lines 339-352): when the consumer's topic still has a map entry, rebuild the
list without the consumer (pointer comparison `cr != expiredConsumer`,
modelled by cid), store it back, then `close(expiredConsumer.inbox)` — which
panics when that slot was already closed; when the topic has no entry,
nothing happens. -/
def expireStep (s : DispState) (c : Consumer) : StepResult :=
  match lookupTopic s.topics c.channel with
  | some cs =>
    if c.cid ∈ s.closedSlots then .panic
    else
      .ok ⟨setTopic s.topics c.channel (cs.filter (fun x => x.cid != c.cid)),
        c.cid :: s.closedSlots⟩ [.closeSlot c.cid]
  | none => .ok s []

/-- One iteration of `actionDispatcher`'s select (eventsource.go lines
269-355).  The `stop` branch's first statement is
`es.closeChannel <- globalChannel`: an unbuffered send to a channel whose
only receive site in the whole repository is this very loop's select, so the
send can never find a rendezvous partner and the branch blocks forever
(formalised below by `DispatcherStep`); none of the five `close` calls after
it is reached. -/
def dispatchStep (s : DispState) : Request → StepResult
  | .publish em =>
    match publishEffects s em with
    | some effs => .ok s effs
    | none => .panic
  | .closeChannel ch => closeChannelStep s ch
  | .stop => .blockedSelfSend
  | .add c => .ok (addStep s c) []
  | .expire c => expireStep s c

/-- Delivery attempts a fan-out pass makes over one consumer list: one
attempt per non-expired consumer, in list order, delivered exactly when the
worker is ready. -/
def attempts (em : EventMessage) (cs : List Consumer) : List Effect :=
  cs.filterMap (fun c => if c.expired then none else some (.tryDeliver c c.ready em))

/-- Delivery attempts of a broadcast publish: the per-topic attempts in map
order. -/
def attemptsAll (em : EventMessage) (m : TopicMap) : List Effect :=
  flattenAll (m.map (fun p => attempts em p.2))

/-- Outcome of one socket write attempted by a consumer worker, as seen by
the error test in `inboxDispatcher` (consumer.go lines 76-83): success, a
timeout `net.Error`, a non-timeout `net.Error`, or an error that is not a
`net.Error` at all. -/
inductive WriteOutcome where
  | ok
  | netTimeout
  | netOther
  | otherErr
deriving DecidableEq, Repr

/-- Go condition `!ok || netErr.Timeout()` deciding whether the worker gives
up: true for a timeout and for an error that is not a network error. -/
def fatalWrite : WriteOutcome → Bool
  | .netTimeout => true
  | .otherErr => true
  | .ok => false
  | .netOther => false

/-- Observable result of running one consumer worker to completion:
the frames successfully written in order, whether the expired flag was set
(monotonically, false to true, at most once), whether the connection was
closed, whether the worker enqueued itself on the expiry queue, whether it
left its loop because the delivery slot was closed, and how many write
deadlines it armed (one per received record). -/
structure WorkerResult where
  wrote : List (List Char)
  expired : Bool
  connClosed : Bool
  reportedExpiry : Bool
  sawClose : Bool
  deadlinesSet : Nat
deriving DecidableEq, Repr

/-- Embedding of `(*consumer).inboxDispatcher` (consumer.go lines 73-86).
The input lists, in order, the records the dispatcher hands to the slot
together with the outcome the connection gives to each write; the end of
the list is the dispatcher closing the slot (`range` ending).  Each
iteration arms the write deadline, renders the record via `Message()` and
writes it; a fatal outcome sets the expired flag, closes the connection,
reports on the expiry queue and returns at once (later entries are never
seen); a non-timeout network error is ignored and the loop re-enters the
wait; when the loop ends by slot close the connection is closed without an
expiry report. -/
def inboxDispatcher : List (EventMessage × WriteOutcome) → WorkerResult
  | [] => ⟨[], false, true, false, true, 0⟩
  | (em, w) :: rest =>
    match w with
    | .ok =>
      let r := inboxDispatcher rest
      ⟨message em :: r.wrote, r.expired, r.connClosed, r.reportedExpiry, r.sawClose,
        r.deadlinesSet + 1⟩
    | .netOther =>
      let r := inboxDispatcher rest
      ⟨r.wrote, r.expired, r.connClosed, r.reportedExpiry, r.sawClose, r.deadlinesSet + 1⟩
    | .netTimeout => ⟨[], true, true, true, false, 1⟩
    | .otherErr => ⟨[], true, true, true, false, 1⟩

/-- Frames a worker succeeds in writing from a run of non-fatal iterations:
the `Message()` render of each record whose write returned no error. -/
def okWrites : List (EventMessage × WriteOutcome) → List (List Char)
  | [] => []
  | (em, w) :: rest => if w = .ok then message em :: okWrites rest else okWrites rest

/-- Failure behaviour of the external connection during a subscribe: whether
the response hijack fails, and whether the preamble header write fails (only
reachable when the hijack succeeded). -/
structure ConnEnv where
  hijackFails : Bool
  preambleWriteFails : Bool
deriving DecidableEq, Repr

/-- Result of `newConsumer` (consumer.go lines 26-47): the consumer handle
when successful; `conn` is `none` when no connection was ever hijacked,
`some true` when a hijacked connection is left open and `some false` when a
hijacked connection was closed again (the write-failure path of
`setupConnection`); `workerStarted` records whether `go cr.inboxDispatcher()`
ran.  A fresh consumer starts with `expired = false`; its worker has not yet
reached its receive, hence `ready = false` at creation time. -/
structure NewConsumerResult where
  consumer : Option Consumer
  conn : Option Bool
  workerStarted : Bool
deriving DecidableEq, Repr

/-- Embedding of `newConsumer`: a failed hijack returns the error at once
(no connection, no worker); a failed preamble write closes the hijacked
connection and returns the error; otherwise the worker goroutine is started
and the consumer handle returned. -/
def newConsumer (env : ConnEnv) (ch : String) (cid : Nat) : NewConsumerResult :=
  if env.hijackFails then ⟨none, none, false⟩
  else if env.preambleWriteFails then ⟨none, some false, false⟩
  else ⟨some ⟨cid, ch, false, false⟩, some true, true⟩

/-- HTTP status written back by the subscribe handler on failure. -/
inductive HttpResponse where
  | badRequest
  | internalServerError
deriving DecidableEq, Repr

/-- Observable result of one run of the subscribe handler: the error
response written (if any), the hijacked-connection state as in
`NewConsumerResult`, whether a worker was started, and the join request
sent to the dispatcher (if any). -/
structure SubscribeResult where
  response : Option HttpResponse
  conn : Option Bool
  workerStarted : Bool
  joinSent : Option Consumer
deriving DecidableEq, Repr

/-- Embedding of `subscribeHandler` (eventsource.go lines 154-171): an empty
channel name does nothing (unreachable behind the router's pattern); the
reserved broadcast name is rejected with a 400 before any connection work;
a `newConsumer` failure answers 500; on success the consumer is sent to the
dispatcher's join channel. -/
def subscribeHandler (env : ConnEnv) (channel : String) (cid : Nat) : SubscribeResult :=
  if 0 < channel.length then
    if channel = globalChannel then ⟨some .badRequest, none, false, none⟩
    else
      let r := newConsumer env channel cid
      match r.consumer with
      | none => ⟨some .internalServerError, r.conn, r.workerStarted, none⟩
      | some c => ⟨none, r.conn, r.workerStarted, some c⟩
  else ⟨none, none, false, none⟩

/-- Tasks (goroutines) of the running service: the dispatcher started by
`New`, the per-consumer workers, the HTTP handler goroutines, and the task
that called `New`. -/
inductive GoTask where
  | dispatcher
  | consumerWorker (n : Nat)
  | httpHandler (n : Nat)
  | mainTask
deriving DecidableEq, Repr

/-- Tasks containing a receive operation on `es.closeChannel`.  In the whole
repository the only receive expression on that channel is
`case channel := <-es.closeChannel` inside `actionDispatcher`'s select
(eventsource.go line 302), which runs on the dispatcher task; every other
occurrence of the channel — `Close` (line 128), `CloseAll` (line 134) and
the shutdown branch itself (line 325) — is a send. -/
def closeChannelReceiverTasks : List GoTask := [.dispatcher]

/-- An unbuffered Go channel send completes only by rendezvous with another
task currently executing a receive on the same channel.  The shutdown
branch's send on `es.closeChannel` is executed by the dispatcher task, so a
rendezvous partner would have to be a receiver task other than the
dispatcher; this decides whether one can ever exist. -/
def canRendezvousStopSend : Bool :=
  closeChannelReceiverTasks.any (fun t => decide (t ≠ GoTask.dispatcher))

/-- Control location of the dispatcher task around the shutdown branch
(eventsource.go lines 323-331): blocked in the select; blocked at line 325
sending `globalChannel` to its own `closeChannel`; having completed that
send and executed `n` of the five `close` calls; or returned. -/
inductive DispPC where
  | atSelect
  | inStopSend
  | stopClosing (n : Nat)
  | returned
deriving DecidableEq, Repr

/-- Steps the dispatcher task can take around shutdown: receive any non-stop
request and loop, receive stop and move to the line-325 send, complete that
send when a rendezvous partner can exist, then perform the five channel
closes and return. -/
inductive DispatcherStep : DispPC → DispPC → Prop where
  | recvRequest : DispatcherStep .atSelect .atSelect
  | recvStop : DispatcherStep .atSelect .inStopSend
  | completeStopSend : canRendezvousStopSend = true →
      DispatcherStep .inStopSend (.stopClosing 0)
  | closeNext (n : Nat) : n < 5 → DispatcherStep (.stopClosing n) (.stopClosing (n + 1))
  | returnStep : DispatcherStep (.stopClosing 5) .returned

/-- Kind of access to the shared map `es.consumers`. -/
inductive AccessKind where
  | read
  | write
deriving DecidableEq, Repr

/-- Whether an access happens before or after `go es.actionDispatcher()`
(eventsource.go line 65) starts the dispatcher task; the `go` statement
orders everything before it in `New` before everything in the new task. -/
inductive Phase where
  | beforeDispatcherStart
  | afterDispatcherStart
deriving DecidableEq, Repr

/-- One syntactic access to `es.consumers` together with the task that
executes it. -/
structure MapAccess where
  site : String
  task : GoTask
  kind : AccessKind
  phase : Phase
deriving DecidableEq, Repr

/-- Every occurrence of `es.consumers` in the repository, with the task that
executes the enclosing code: the initialising write in `New` (line 62, on
the task calling `New`, before the dispatcher task exists); the four query
methods `ChannelExists` (line 94), `ConsumerCount` (line 100),
`ConsumerCountAll` (line 109) and `Channels` (line 118), which run on their
caller's task — in this repository the HTTP handler goroutine running
`informationHandler` (lines 233-237); and the publish, close, join and
expiry branches of `actionDispatcher` (lines 277-298, 305-319, 336,
341-351), which run on the dispatcher task. -/
def consumersMapAccesses : List MapAccess :=
  [⟨"New", .mainTask, .write, .beforeDispatcherStart⟩,
   ⟨"ChannelExists", .httpHandler 0, .read, .afterDispatcherStart⟩,
   ⟨"ConsumerCount", .httpHandler 0, .read, .afterDispatcherStart⟩,
   ⟨"ConsumerCountAll", .httpHandler 0, .read, .afterDispatcherStart⟩,
   ⟨"Channels", .httpHandler 0, .read, .afterDispatcherStart⟩,
   ⟨"actionDispatcher.publish", .dispatcher, .read, .afterDispatcherStart⟩,
   ⟨"actionDispatcher.close", .dispatcher, .write, .afterDispatcherStart⟩,
   ⟨"actionDispatcher.add", .dispatcher, .write, .afterDispatcherStart⟩,
   ⟨"actionDispatcher.expire", .dispatcher, .write, .afterDispatcherStart⟩]

@[simp]
theorem flattenAll_nil {α : Type} : flattenAll ([] : List (List α)) = [] := rfl

@[simp]
theorem flattenAll_cons {α : Type} (xs : List α) (l : List (List α)) :
    flattenAll (xs :: l) = xs ++ flattenAll l := rfl

theorem flattenAll_append {α : Type} (l₁ l₂ : List (List α)) :
    flattenAll (l₁ ++ l₂) = flattenAll l₁ ++ flattenAll l₂ := by
  induction l₁ with
  | nil => simp
  | cons xs rest ih => simp [ih]

theorem mem_flattenAll {α : Type} {a : α} {l : List (List α)} :
    a ∈ flattenAll l ↔ ∃ xs, xs ∈ l ∧ a ∈ xs := by
  induction l with
  | nil => simp
  | cons xs rest ih =>
    simp only [flattenAll_cons, List.mem_append, ih, List.mem_cons]
    constructor
    · rintro (h | ⟨ys, hys, hay⟩)
      · exact ⟨xs, Or.inl rfl, h⟩
      · exact ⟨ys, Or.inr hys, hay⟩
    · rintro ⟨ys, (rfl | hys), hay⟩
      · exact Or.inl hay
      · exact Or.inr ⟨ys, hys, hay⟩

theorem sublist_flattenAll {α : Type} {xs : List α} {l : List (List α)}
    (h : xs ∈ l) : xs.Sublist (flattenAll l) := by
  induction l with
  | nil => cases h
  | cons ys rest ih =>
    rcases List.mem_cons.mp h with rfl | h'
    · exact List.sublist_append_left xs (flattenAll rest)
    · exact List.Sublist.trans (ih h') (List.sublist_append_right ys (flattenAll rest))

theorem removeNl_eq_filter (l : List Char) :
    removeNl l = l.filter (fun c => c ≠ '\n') := by
  induction l with
  | nil => rfl
  | cons c cs ih =>
    by_cases h : c = '\n' <;> simp [removeNl, h, ih, List.filter_cons]

theorem string_length_eq_zero_iff (s : String) : s.length = 0 ↔ s = "" := by
  cases s with
  | mk data =>
    cases data with
    | nil => simp
    | cons c cs => simp [String.length, String.ext_iff]

/-- Claim C2: for every event record, `Message()` renders exactly the frame
described by the specification — field lines in the fixed order id, event,
data, each present exactly when populated, id in decimal, event newlines
removed (not escaped), one `data: ` line per newline-split segment of the
payload (empty segments included), and exactly one trailing blank line; in
particular a record with no populated fields renders to a single blank
line. -/
theorem message_renders_spec :
    (∀ em : EventMessage, message em = specRender em) ∧
    (∀ ch : String, message ⟨0, "", "", ch⟩ = ['\n']) := by
  constructor
  · intro em
    by_cases h1 : em.id = 0 <;> by_cases h2 : em.event = "" <;> by_cases h3 : em.data = "" <;>
      simp [message, specRender, specFieldLines, removeNl_eq_filter,
        string_length_eq_zero_iff, Nat.pos_iff_ne_zero, h1, h2, h3,
        flattenAll_append, List.append_assoc]
  · intro ch
    rfl

theorem decodeLoop_append_obj (objs : List DecodeStep) (em : EventMessage) :
    ∀ o : JsonObj, decodeLoop em (objs ++ [.obj o]) =
      (decodeLoop em objs).map (fun r => applyObj r o) := by
  induction objs generalizing em with
  | nil => intro o; rfl
  | cons st rest ih =>
    intro o
    cases st with
    | obj o' => simpa using ih (applyObj em o') o
    | malformed => rfl

theorem decodeLoop_malformed (pre : List DecodeStep) :
    ∀ (em : EventMessage) (suf : List DecodeStep),
      decodeLoop em (pre ++ .malformed :: suf) = .error .decodeError := by
  induction pre with
  | nil => intro em suf; rfl
  | cons st rest ih =>
    intro em suf
    cases st with
    | obj o => simpa using ih (applyObj em o) suf
    | malformed => rfl

/-- Claim C3: `newEventMessage` merges all concatenated JSON objects into one
record — a field present in a later object overwrites, a field absent from a
later object leaves the earlier value intact (concretely, the stream
consisting of an id-only object then an event-only object yields both
values); zero decoded objects succeed with all fields at their zero values;
a malformed object anywhere fails the whole build with a DecodeError; and
the record's channel is `"default"` exactly when the given name is empty,
the given name verbatim otherwise. -/
theorem newEventMessage_builds_correctly :
    (newEventMessage [.obj ⟨some 1, none, none⟩, .obj ⟨none, some "x", none⟩] "c" =
      .ok ⟨1, "x", "", "c"⟩) ∧
    (∀ ch : String,
      newEventMessage [] ch = .ok ⟨0, "", "", if ch = "" then "default" else ch⟩) ∧
    (∀ (pre suf : List DecodeStep) (ch : String),
      newEventMessage (pre ++ .malformed :: suf) ch = .error .decodeError) ∧
    (∀ (objs : List DecodeStep) (o : JsonObj) (ch : String) (em em' : EventMessage),
      newEventMessage objs ch = .ok em →
      newEventMessage (objs ++ [.obj o]) ch = .ok em' →
      em'.id = o.id.getD em.id ∧ em'.event = o.event.getD em.event ∧
        em'.data = o.data.getD em.data) ∧
    (∀ (stream : List DecodeStep) (ch : String) (em : EventMessage),
      newEventMessage stream ch = .ok em →
      em.channel = if ch = "" then "default" else ch) := by
  refine ⟨rfl, fun ch => rfl, ?_, ?_, ?_⟩
  · intro pre suf ch
    rw [newEventMessage, decodeLoop_malformed]
  · intro objs o ch em em' h h'
    rw [newEventMessage, decodeLoop_append_obj] at h'
    rw [newEventMessage] at h
    cases hd : decodeLoop ⟨0, "", "", ""⟩ objs with
    | error e => rw [hd] at h; cases h
    | ok r =>
      rw [hd] at h h'
      cases h
      cases h'
      simp [applyObj]
  · intro stream ch em h
    rw [newEventMessage] at h
    cases hd : decodeLoop ⟨0, "", "", ""⟩ stream with
    | error e => rw [hd] at h; cases h
    | ok r => rw [hd] at h; cases h; rfl

/-- Witness for claim C3's theorem: the hypothesis-bearing conjuncts applied
at the concrete two-object stream from the claim. -/
theorem newEventMessage_builds_correctly_witness :
    newEventMessage ([] ++ [.obj ⟨some 1, none, none⟩]) "c" = .ok ⟨1, "", "", "c"⟩ ∧
      (⟨1, "", "", "c"⟩ : EventMessage).id = (some 1).getD ((⟨0, "", "", "c"⟩ : EventMessage).id) ∧
      (⟨1, "", "", "c"⟩ : EventMessage).channel = if "c" = "" then "default" else "c" := by
  refine ⟨rfl, ?_, ?_⟩
  · exact (newEventMessage_builds_correctly.2.2.2.1 [] ⟨some 1, none, none⟩ "c"
      ⟨0, "", "", "c"⟩ ⟨1, "", "", "c"⟩ rfl rfl).1
  · exact newEventMessage_builds_correctly.2.2.2.2 [.obj ⟨some 1, none, none⟩] "c"
      ⟨1, "", "", "c"⟩ rfl

theorem lookupTopic_mem {m : TopicMap} {ch : String} {cs : List Consumer}
    (h : lookupTopic m ch = some cs) : (ch, cs) ∈ m := by
  induction m with
  | nil => cases h
  | cons p rest ih =>
    obtain ⟨k, v⟩ := p
    by_cases hk : k = ch
    · subst hk
      simp [lookupTopic] at h
      simp [h]
    · simp [lookupTopic, hk] at h
      exact List.mem_cons_of_mem _ (ih h)

theorem fanout_eq {closed : List Nat} {em : EventMessage} {cs : List Consumer}
    (h : ∀ c ∈ cs, c.expired = false → c.cid ∉ closed) :
    fanout closed em cs = some (attempts em cs) := by
  induction cs with
  | nil => rfl
  | cons c rest ih =>
    have hrest : ∀ c' ∈ rest, c'.expired = false → c'.cid ∉ closed :=
      fun c' hc' => h c' (List.mem_cons_of_mem _ hc')
    by_cases he : c.expired
    · simpa [fanout, attempts, he, List.filterMap_cons] using ih hrest
    · have hfresh : c.cid ∉ closed := h c (List.mem_cons_self c rest) (by simpa using he)
      simp [fanout, he, hfresh, ih hrest, attempts, List.filterMap_cons]

theorem mem_attempts {em : EventMessage} {cs : List Consumer} {x : Effect} :
    x ∈ attempts em cs ↔
      ∃ c, c ∈ cs ∧ c.expired = false ∧ x = .tryDeliver c c.ready em := by
  simp only [attempts, List.mem_filterMap]
  constructor
  · rintro ⟨c, hc, hx⟩
    by_cases he : c.expired
    · simp [he] at hx
    · simp [he] at hx
      exact ⟨c, hc, by simpa using he, hx.symm⟩
  · rintro ⟨c, hc, he, rfl⟩
    exact ⟨c, hc, by simp [he]⟩

theorem fanoutAll_eq {closed : List Nat} {em : EventMessage} {m : TopicMap}
    (h : ∀ p ∈ m, ∀ c ∈ p.2, c.expired = false → c.cid ∉ closed) :
    fanoutAll closed em (m.map Prod.snd) = some (attemptsAll em m) := by
  induction m with
  | nil => rfl
  | cons p rest ih =>
    have hp : fanout closed em p.2 = some (attempts em p.2) :=
      fanout_eq (h p (List.mem_cons_self p rest))
    have hrest := ih (fun q hq => h q (List.mem_cons_of_mem _ hq))
    simp [fanoutAll, hp, hrest, attemptsAll]

theorem mem_of_fanout {closed : List Nat} {em : EventMessage} {cs : List Consumer}
    {effs : List Effect} (h : fanout closed em cs = some effs) :
    ∀ x ∈ effs, ∃ c, c ∈ cs ∧ c.expired = false ∧ x = Effect.tryDeliver c c.ready em := by
  induction cs generalizing effs with
  | nil =>
    simp [fanout] at h
    subst h
    intro x hx
    cases hx
  | cons c rest ih =>
    by_cases he : c.expired
    · simp only [fanout, he, if_pos rfl] at h
      intro x hx
      obtain ⟨c', hc', hrest⟩ := ih (by simpa [he] using h) x hx
      exact ⟨c', List.mem_cons_of_mem _ hc', hrest⟩
    · by_cases hcl : c.cid ∈ closed
      · simp [fanout, he, hcl] at h
      · simp only [fanout, he, hcl] at h
        cases hr : fanout closed em rest with
        | none => simp [hr] at h
        | some e' =>
          simp [hr] at h
          subst h
          intro x hx
          rcases List.mem_cons.mp hx with rfl | hx'
          · exact ⟨c, List.mem_cons_self c rest, by simpa using he, rfl⟩
          · obtain ⟨c', hc', hrest⟩ := ih hr x hx'
            exact ⟨c', List.mem_cons_of_mem _ hc', hrest⟩

theorem mem_of_fanoutAll {closed : List Nat} {em : EventMessage}
    {ls : List (List Consumer)} {effs : List Effect}
    (h : fanoutAll closed em ls = some effs) :
    ∀ x ∈ effs, ∃ c, c.expired = false ∧ x = Effect.tryDeliver c c.ready em := by
  induction ls generalizing effs with
  | nil =>
    simp [fanoutAll] at h
    subst h
    intro x hx
    cases hx
  | cons cs rest ih =>
    simp only [fanoutAll] at h
    cases h1 : fanout closed em cs with
    | none => simp [h1] at h
    | some a =>
      cases h2 : fanoutAll closed em rest with
      | none => simp [h1, h2] at h
      | some b =>
        simp [h1, h2] at h
        subst h
        intro x hx
        rcases List.mem_append.mp hx with hx' | hx'
        · obtain ⟨c, _, hc⟩ := mem_of_fanout h1 x hx'
          exact ⟨c, hc⟩
        · exact ih h2 x hx'

/-- Claim C1: processing a publish request fans out to every topic's list
when the record's channel is the reserved broadcast name and only to the
named topic's list otherwise, silently doing nothing when that topic has no
map entry; a delivery attempt is made exactly for the consumers whose
expired flag is false, each attempt succeeds exactly when that consumer's
worker is immediately ready (a consumer that is not ready is simply skipped,
dropped for that consumer only), and the publish step never blocks waiting
on a consumer.  The hypothesis states that no consumer still present in the
map has a closed delivery slot, which holds in every reachable dispatcher
state because the dispatcher always removes a consumer from the map in the
same serialized step that closes its slot. -/
theorem publish_fanout_correct (s : DispState) (em : EventMessage)
    (hfresh : ∀ p ∈ s.topics, ∀ c ∈ p.2, c.expired = false → c.cid ∉ s.closedSlots) :
    (em.channel ≠ globalChannel → lookupTopic s.topics em.channel = none →
      dispatchStep s (.publish em) = .ok s []) ∧
    (∀ cs : List Consumer, em.channel ≠ globalChannel →
      lookupTopic s.topics em.channel = some cs →
      dispatchStep s (.publish em) = .ok s (attempts em cs)) ∧
    (em.channel = globalChannel →
      dispatchStep s (.publish em) = .ok s (attemptsAll em s.topics) ∧
      ∀ p ∈ s.topics, ∀ c ∈ p.2, c.expired = false →
        Effect.tryDeliver c c.ready em ∈ attemptsAll em s.topics) ∧
    (∀ effs : List Effect, dispatchStep s (.publish em) = .ok s effs →
      ∀ (c : Consumer) (d : Bool) (em' : EventMessage),
        Effect.tryDeliver c d em' ∈ effs →
        c.expired = false ∧ d = c.ready ∧ em' = em) ∧
    dispatchStep s (.publish em) ≠ .blockedSelfSend := by
  refine ⟨?_, ?_, ?_, ?_, ?_⟩
  · intro hne hnone
    simp [dispatchStep, publishEffects, hne, hnone]
  · intro cs hne hsome
    have hcs : ∀ c ∈ cs, c.expired = false → c.cid ∉ s.closedSlots :=
      hfresh (em.channel, cs) (lookupTopic_mem hsome)
    simp [dispatchStep, publishEffects, hne, hsome, fanout_eq hcs]
  · intro hgc
    refine ⟨by simp [dispatchStep, publishEffects, hgc, fanoutAll_eq hfresh], ?_⟩
    intro p hp c hc hexp
    have : Effect.tryDeliver c c.ready em ∈ attempts em p.2 :=
      mem_attempts.mpr ⟨c, hc, hexp, rfl⟩
    exact mem_flattenAll.mpr ⟨attempts em p.2, List.mem_map_of_mem _ hp, this⟩
  · intro effs heq c d em' hmem
    by_cases hgc : em.channel = globalChannel
    · have h1 : fanoutAll s.closedSlots em (s.topics.map Prod.snd) = some effs := by
        cases hfa : fanoutAll s.closedSlots em (s.topics.map Prod.snd) with
        | none => simp [dispatchStep, publishEffects, hgc, hfa] at heq
        | some e =>
          simp [dispatchStep, publishEffects, hgc, hfa] at heq
          rw [heq]
      obtain ⟨c', hc', hx⟩ := mem_of_fanoutAll h1 _ hmem
      cases hx
      exact ⟨hc', rfl, rfl⟩
    · cases hl : lookupTopic s.topics em.channel with
      | none =>
        simp [dispatchStep, publishEffects, hgc, hl] at heq
        rw [heq] at hmem
        cases hmem
      | some cs =>
        have h1 : fanout s.closedSlots em cs = some effs := by
          cases hfa : fanout s.closedSlots em cs with
          | none => simp [dispatchStep, publishEffects, hgc, hl, hfa] at heq
          | some e =>
            simp [dispatchStep, publishEffects, hgc, hl, hfa] at heq
            rw [heq]
        obtain ⟨c', _, hc', hx⟩ := mem_of_fanout h1 _ hmem
        cases hx
        exact ⟨hc', rfl, rfl⟩
  · cases hp : publishEffects s em with
    | none => simp [dispatchStep, hp]
    | some e => simp [dispatchStep, hp]

/-- Witness for claim C1's theorem: a two-topic state with one expired, one
busy and one ready consumer; the named-topic conjunct is applied at a topic
that is absent from the map. -/
theorem publish_fanout_correct_witness :
    dispatchStep ⟨[("t", [⟨1, "t", false, true⟩, ⟨2, "t", true, true⟩]),
        ("u", [⟨3, "u", false, false⟩])], []⟩
      (.publish ⟨5, "e", "d", "nosuch"⟩) = .ok
        ⟨[("t", [⟨1, "t", false, true⟩, ⟨2, "t", true, true⟩]),
          ("u", [⟨3, "u", false, false⟩])], []⟩ [] := by
  exact (publish_fanout_correct _ _ (by decide)).1 (by decide) (by decide)

/-- Claim C10: whenever the dispatcher completes a publish step, the
resulting state is exactly the state it started from — the consumer map
(entries, list membership and order, every consumer's expired flag, all of
which live in `topics`) and the slot bookkeeping are untouched; the publish
branch of `actionDispatcher` contains no write to `es.consumers` and no
write to any consumer field. -/
theorem publish_frame (s : DispState) (em : EventMessage) (s' : DispState)
    (effs : List Effect) (h : dispatchStep s (.publish em) = .ok s' effs) :
    s'.topics = s.topics ∧ s'.closedSlots = s.closedSlots := by
  cases hp : publishEffects s em with
  | none => simp [dispatchStep, hp] at h
  | some e =>
    simp [dispatchStep, hp] at h
    rw [← h.1]
    exact ⟨rfl, rfl⟩

/-- Witness for claim C10's theorem: a publish over a one-consumer topic
completes and the state projections are unchanged. -/
theorem publish_frame_witness :
    (⟨[("t", [⟨1, "t", false, true⟩])], []⟩ : DispState).topics =
        (⟨[("t", [⟨1, "t", false, true⟩])], []⟩ : DispState).topics ∧
      (⟨[("t", [⟨1, "t", false, true⟩])], []⟩ : DispState).closedSlots =
        (⟨[("t", [⟨1, "t", false, true⟩])], []⟩ : DispState).closedSlots := by
  exact publish_frame ⟨[("t", [⟨1, "t", false, true⟩])], []⟩ ⟨5, "e", "d", "t"⟩
    ⟨[("t", [⟨1, "t", false, true⟩])], []⟩
    [.tryDeliver ⟨1, "t", false, true⟩ true ⟨5, "e", "d", "t"⟩] (by decide)

/-- Counterexample for claim C5 as stated: in the state reached after
consumer 7 of topic `t` has expired and been processed once (its slot is
closed, the topic entry remains), processing a second subscriber-expired
request for the same consumer is not a no-op — the dispatcher reaches
`close(expiredConsumer.inbox)` on the already-closed slot and panics
(`close of closed channel`). -/
theorem expire_reported_twice_panics :
    dispatchStep ⟨[("t", [⟨7, "t", true, false⟩])], []⟩ (.expire ⟨7, "t", true, false⟩) =
      .ok ⟨[("t", [])], [7]⟩ [.closeSlot 7] ∧
    dispatchStep ⟨[("t", [])], [7]⟩ (.expire ⟨7, "t", true, false⟩) = .panic := by
  exact ⟨by decide, by decide⟩

/-- Claim C5 as amended: processing a subscriber-expired request for a
subscriber whose topic still has a map entry rebuilds that topic's list with
the subscriber filtered out (by pointer identity) and then closes its
delivery slot — when the slot is still open this succeeds, but for a
subscriber already reported once whose topic entry still exists the close
hits an already-closed slot and panics instead of being a no-op; only a
subscriber whose topic entry has been removed is a true no-op, with the
dispatcher state unchanged and no failure. -/
theorem expire_step_correct (s : DispState) (c : Consumer) :
    (lookupTopic s.topics c.channel = none → dispatchStep s (.expire c) = .ok s []) ∧
    (∀ cs : List Consumer, lookupTopic s.topics c.channel = some cs →
      c.cid ∉ s.closedSlots →
      dispatchStep s (.expire c) = .ok
        ⟨setTopic s.topics c.channel (cs.filter (fun x => x.cid != c.cid)),
          c.cid :: s.closedSlots⟩ [.closeSlot c.cid]) ∧
    (∀ cs : List Consumer, lookupTopic s.topics c.channel = some cs →
      c.cid ∈ s.closedSlots → dispatchStep s (.expire c) = .panic) := by
  refine ⟨?_, ?_, ?_⟩
  · intro hnone
    simp [dispatchStep, expireStep, hnone]
  · intro cs hsome hopen
    simp [dispatchStep, expireStep, hsome, hopen]
  · intro cs hsome hclosed
    simp [dispatchStep, expireStep, hsome, hclosed]

/-- Witness for claim C5's amended theorem: the three conjuncts applied at
concrete one-topic states. -/
theorem expire_step_correct_witness :
    dispatchStep ⟨[("u", [])], []⟩ (.expire ⟨7, "t", true, false⟩) = .ok ⟨[("u", [])], []⟩ [] ∧
    dispatchStep ⟨[("t", [⟨7, "t", true, false⟩, ⟨8, "t", false, true⟩])], []⟩
      (.expire ⟨7, "t", true, false⟩) =
      .ok ⟨[("t", [⟨8, "t", false, true⟩])], [7]⟩ [.closeSlot 7] ∧
    dispatchStep ⟨[("t", [])], [7]⟩ (.expire ⟨7, "t", true, false⟩) = .panic := by
  refine ⟨?_, ?_, ?_⟩
  · exact (expire_step_correct ⟨[("u", [])], []⟩ ⟨7, "t", true, false⟩).1 (by decide)
  · exact (expire_step_correct _ ⟨7, "t", true, false⟩).2.1
      [⟨7, "t", true, false⟩, ⟨8, "t", false, true⟩] (by decide) (by decide)
  · exact (expire_step_correct ⟨[("t", [])], [7]⟩ ⟨7, "t", true, false⟩).2.2 [] (by decide)
      (by decide)

theorem closeSlots_eq {l : List Nat} (closed : List Nat) (hnd : l.Nodup)
    (hdisj : ∀ x ∈ l, x ∉ closed) :
    closeSlots closed l = some (l.reverse ++ closed) := by
  induction l generalizing closed with
  | nil => rfl
  | cons a rest ih =>
    have ha : a ∉ closed := hdisj a (List.mem_cons_self a rest)
    have hnd' : rest.Nodup := hnd.of_cons
    have hdisj' : ∀ x ∈ rest, x ∉ a :: closed := by
      intro x hx
      simp only [List.mem_cons, not_or]
      exact ⟨fun hxa => (List.nodup_cons.mp hnd).1 (hxa ▸ hx),
        hdisj x (List.mem_cons_of_mem _ hx)⟩
    simp [closeSlots, ha, ih (a :: closed) hnd' hdisj', List.append_assoc]

theorem lookupTopic_eq_none_of_not_mem_keys {m : TopicMap} {ch : String}
    (h : ch ∉ m.map Prod.fst) : lookupTopic m ch = none := by
  induction m with
  | nil => rfl
  | cons p rest ih =>
    obtain ⟨k, v⟩ := p
    simp only [List.map_cons, List.mem_cons, not_or] at h
    simp [lookupTopic, fun hk : k = ch => h.1 hk.symm, ih h.2]
    intro hk
    exact absurd hk.symm h.1

theorem lookupTopic_eraseTopic_self {m : TopicMap} {ch : String}
    (hkeys : (m.map Prod.fst).Nodup) :
    lookupTopic (eraseTopic m ch) ch = none := by
  induction m with
  | nil => rfl
  | cons p rest ih =>
    obtain ⟨k, v⟩ := p
    simp only [List.map_cons, List.nodup_cons] at hkeys
    by_cases hk : k = ch
    · subst hk
      simp [eraseTopic, lookupTopic_eq_none_of_not_mem_keys hkeys.1]
    · simp [eraseTopic, hk, lookupTopic, ih hkeys.2]

theorem lookupTopic_eraseTopic_other {m : TopicMap} {ch k : String} (hk : k ≠ ch) :
    lookupTopic (eraseTopic m ch) k = lookupTopic m k := by
  induction m with
  | nil => rfl
  | cons p rest ih =>
    obtain ⟨k', v⟩ := p
    by_cases hk' : k' = ch
    · subst hk'
      have hkk : ¬ k' = k := fun h => hk h.symm
      simp [eraseTopic, lookupTopic, hkk]
    · simp [eraseTopic, hk', lookupTopic, ih]

/-- Claim C7: a topic-close request for the broadcast name closes the slot
of every consumer of every topic and leaves the map empty; a topic-close
request for any other existing name closes the slots of exactly that
topic's members and removes exactly that entry, leaving every other topic's
entry (and hence its membership) unchanged.  The freshness and `Nodup`
hypotheses state that map members hold distinct, still-open slots, which
holds in every reachable dispatcher state, and that the map (a Go map) has
distinct keys. -/
theorem close_topic_correct (s : DispState) (ch : String)
    (hnd : (topicCids s.topics).Nodup)
    (hopen : ∀ x ∈ topicCids s.topics, x ∉ s.closedSlots)
    (hkeys : (s.topics.map Prod.fst).Nodup) :
    (dispatchStep s (.closeChannel globalChannel) =
      .ok ⟨[], (topicCids s.topics).reverse ++ s.closedSlots⟩
        ((topicCids s.topics).map Effect.closeSlot)) ∧
    (∀ cs : List Consumer, ch ≠ globalChannel → lookupTopic s.topics ch = some cs →
      dispatchStep s (.closeChannel ch) =
        .ok ⟨eraseTopic s.topics ch, (cs.map Consumer.cid).reverse ++ s.closedSlots⟩
          ((cs.map Consumer.cid).map Effect.closeSlot) ∧
      lookupTopic (eraseTopic s.topics ch) ch = none ∧
      ∀ k : String, k ≠ ch →
        lookupTopic (eraseTopic s.topics ch) k = lookupTopic s.topics k) := by
  constructor
  · simp [dispatchStep, closeChannelStep, closeSlots_eq s.closedSlots hnd hopen]
  · intro cs hne hsome
    have hmem : cs.map Consumer.cid ∈ s.topics.map (fun p => p.2.map Consumer.cid) := by
      have := lookupTopic_mem hsome
      exact List.mem_map_of_mem (fun p => p.2.map Consumer.cid) this
    have hsub : (cs.map Consumer.cid).Sublist (topicCids s.topics) :=
      sublist_flattenAll hmem
    have hnd' : (cs.map Consumer.cid).Nodup := hnd.sublist hsub
    have hopen' : ∀ x ∈ cs.map Consumer.cid, x ∉ s.closedSlots :=
      fun x hx => hopen x (hsub.subset hx)
    refine ⟨?_, lookupTopic_eraseTopic_self hkeys, fun k hk => lookupTopic_eraseTopic_other hk⟩
    simp [dispatchStep, closeChannelStep, hne, hsome,
      closeSlots_eq s.closedSlots hnd' hopen']

/-- Witness for claim C7's theorem: a two-topic state; the named conjunct is
applied to one of the two topics. -/
theorem close_topic_correct_witness :
    dispatchStep ⟨[("t", [⟨1, "t", false, true⟩]), ("u", [⟨2, "u", true, false⟩])], []⟩
      (.closeChannel globalChannel) =
      .ok ⟨[], [2, 1]⟩ [.closeSlot 1, .closeSlot 2] ∧
    dispatchStep ⟨[("t", [⟨1, "t", false, true⟩]), ("u", [⟨2, "u", true, false⟩])], []⟩
      (.closeChannel "t") =
      .ok ⟨[("u", [⟨2, "u", true, false⟩])], [1]⟩ [.closeSlot 1] ∧
    lookupTopic [("u", [⟨2, "u", true, false⟩])] "u" = some [⟨2, "u", true, false⟩] := by
  have h := close_topic_correct
    ⟨[("t", [⟨1, "t", false, true⟩]), ("u", [⟨2, "u", true, false⟩])], []⟩ "t"
    (by decide) (by decide) (by decide)
  have h2 := h.2 [⟨1, "t", false, true⟩] (by decide) (by decide)
  exact ⟨h.1, h2.1, by decide⟩

/-- Claim C6: a worker that hits a write outcome that is a timeout or not a
recognized network error sets its expired flag, closes its connection,
enqueues itself on the expiry queue and terminates immediately — whatever
records would have followed are never received (the result does not depend
on `rest`), the frames written before that are exactly the renders of the
successfully written records, and one deadline was armed per record
received; a worker whose every write outcome is non-fatal (successes and
non-timeout network errors) processes the whole stream, and when its slot
is closed it exits the loop, closes the connection and reports no expiry,
its expired flag still false. -/
theorem inboxDispatcher_correct :
    (∀ (pre : List (EventMessage × WriteOutcome)) (em : EventMessage)
      (w : WriteOutcome) (rest : List (EventMessage × WriteOutcome)),
      (∀ x ∈ pre, fatalWrite x.2 = false) → fatalWrite w = true →
      inboxDispatcher (pre ++ (em, w) :: rest) =
        ⟨okWrites pre, true, true, true, false, pre.length + 1⟩) ∧
    (∀ evs : List (EventMessage × WriteOutcome),
      (∀ x ∈ evs, fatalWrite x.2 = false) →
      inboxDispatcher evs = ⟨okWrites evs, false, true, false, true, evs.length⟩) := by
  constructor
  · intro pre em w rest hpre hw
    induction pre with
    | nil =>
      cases w with
      | ok => cases hw
      | netOther => cases hw
      | netTimeout => simp [inboxDispatcher, okWrites]
      | otherErr => simp [inboxDispatcher, okWrites]
    | cons x xs ih =>
      obtain ⟨em', w'⟩ := x
      have hx : fatalWrite w' = false := hpre (em', w') (List.mem_cons_self _ _)
      have hxs : ∀ y ∈ xs, fatalWrite y.2 = false :=
        fun y hy => hpre y (List.mem_cons_of_mem _ hy)
      cases w' with
      | ok => simp [inboxDispatcher, okWrites, ih hxs, List.length_cons]
      | netOther => simp [inboxDispatcher, okWrites, ih hxs, List.length_cons]
      | netTimeout => cases hx
      | otherErr => cases hx
  · intro evs hevs
    induction evs with
    | nil => rfl
    | cons x xs ih =>
      obtain ⟨em', w'⟩ := x
      have hx : fatalWrite w' = false := hevs (em', w') (List.mem_cons_self _ _)
      have hxs : ∀ y ∈ xs, fatalWrite y.2 = false :=
        fun y hy => hevs y (List.mem_cons_of_mem _ hy)
      cases w' with
      | ok => simp [inboxDispatcher, okWrites, ih hxs]
      | netOther => simp [inboxDispatcher, okWrites, ih hxs]
      | netTimeout => cases hx
      | otherErr => cases hx

/-- Witness for claim C6's theorem: a worker that writes one frame, shrugs
off one non-timeout network error, then times out; the records after the
timeout are never processed. -/
theorem inboxDispatcher_correct_witness :
    inboxDispatcher [(⟨1, "a", "b", "t"⟩, .ok), (⟨2, "c", "d", "t"⟩, .netOther),
        (⟨3, "e", "f", "t"⟩, .netTimeout), (⟨4, "g", "h", "t"⟩, .ok)] =
      ⟨[message ⟨1, "a", "b", "t"⟩], true, true, true, false, 3⟩ ∧
    inboxDispatcher [(⟨1, "a", "b", "t"⟩, .ok), (⟨2, "c", "d", "t"⟩, .netOther)] =
      ⟨[message ⟨1, "a", "b", "t"⟩], false, true, false, true, 2⟩ := by
  constructor
  · have h := inboxDispatcher_correct.1
      [(⟨1, "a", "b", "t"⟩, .ok), (⟨2, "c", "d", "t"⟩, .netOther)] ⟨3, "e", "f", "t"⟩
      .netTimeout [(⟨4, "g", "h", "t"⟩, .ok)] (by decide) rfl
    simpa [okWrites] using h
  · have h := inboxDispatcher_correct.2
      [(⟨1, "a", "b", "t"⟩, .ok), (⟨2, "c", "d", "t"⟩, .netOther)] (by decide)
    simpa [okWrites] using h

/-- Claim C8: every failed subscribe leaves the system unchanged — the
reserved broadcast name is rejected with an error before any connection
work (no hijack, no worker, no join request); a hijack or preamble-write
failure is answered with an error, leaves no open hijacked connection (the
preamble path closes the connection it hijacked; the hijack-failure path
never obtained one), starts no worker and sends no join request; and a join
request reaches the dispatcher only on full success — therefore in every
failure case nothing is ever handed to the only task that mutates the
topic map, which stays as it was. -/
theorem subscribe_failure_clean :
    (∀ (env : ConnEnv) (cid : Nat),
      subscribeHandler env globalChannel cid = ⟨some .badRequest, none, false, none⟩) ∧
    (∀ (env : ConnEnv) (ch : String) (cid : Nat), 0 < ch.length → ch ≠ globalChannel →
      env.hijackFails = true ∨ env.preambleWriteFails = true →
      subscribeHandler env ch cid =
        ⟨some .internalServerError, if env.hijackFails then none else some false,
          false, none⟩) ∧
    (∀ (env : ConnEnv) (ch : String) (cid : Nat) (c : Consumer),
      (subscribeHandler env ch cid).joinSent = some c →
      env.hijackFails = false ∧ env.preambleWriteFails = false ∧
        (subscribeHandler env ch cid).response = none ∧ ch ≠ globalChannel) := by
  refine ⟨?_, ?_, ?_⟩
  · intro env cid
    simp [subscribeHandler, globalChannel, String.length]
  · intro env ch cid hlen hne hfail
    rcases hfail with hf | hf
    · simp [subscribeHandler, hlen, hne, newConsumer, hf]
    · by_cases hh : env.hijackFails
      · simp [subscribeHandler, hlen, hne, newConsumer, hh]
      · simp [subscribeHandler, hlen, hne, newConsumer, hh, hf]
  · intro env ch cid c hjoin
    by_cases hlen : 0 < ch.length
    · by_cases hgc : ch = globalChannel
      · simp [subscribeHandler, hlen, hgc,
          (by decide : (0:Nat) < globalChannel.length)] at hjoin
      · by_cases hh : env.hijackFails
        · simp [subscribeHandler, hlen, hgc, newConsumer, hh] at hjoin
        · by_cases hp : env.preambleWriteFails
          · simp [subscribeHandler, hlen, hgc, newConsumer, hh, hp] at hjoin
          · refine ⟨by simpa using hh, by simpa using hp, ?_, hgc⟩
            simp [subscribeHandler, hlen, hgc, newConsumer, hh, hp]
    · simp [subscribeHandler, hlen] at hjoin

/-- Witness for claim C8's theorem: the reserved-name conjunct at a concrete
environment, and the failure conjunct at a failing hijack. -/
theorem subscribe_failure_clean_witness :
    subscribeHandler ⟨false, false⟩ globalChannel 1 = ⟨some .badRequest, none, false, none⟩ ∧
    subscribeHandler ⟨true, false⟩ "news" 1 = ⟨some .internalServerError, none, false, none⟩ := by
  constructor
  · exact subscribe_failure_clean.1 ⟨false, false⟩ 1
  · have h := subscribe_failure_clean.2.1 ⟨true, false⟩ "news" 1 (by decide) (by decide)
      (Or.inl rfl)
    simpa using h

/-- Claim C4 is refuted by this theorem: receiving a stop request takes the
dispatcher to the line-325 self-send, and from there no sequence of steps
leads anywhere else — the send's only possible receiver is the dispatcher
itself, which is no longer at its select, so the topic-close for the
broadcast name is never processed, none of the five request channels is
ever closed, and the loop never returns.  The `close` calls and the
`return` of the shutdown branch are unreachable dead code. -/
theorem shutdown_self_send_deadlock :
    DispatcherStep .atSelect .inStopSend ∧
    ∀ pc : DispPC, Relation.ReflTransGen DispatcherStep .inStopSend pc →
      pc = .inStopSend := by
  constructor
  · exact .recvStop
  · intro pc h
    induction h with
    | refl => rfl
    | tail hab hbc ih =>
      rename_i b c
      rw [ih] at hbc
      cases hbc with
      | completeStopSend hr => cases hr

/-- Witness for claim C4's theorem: the stuckness conjunct applied at the
reflexive chain. -/
theorem shutdown_self_send_deadlock_witness :
    DispatcherStep .atSelect .inStopSend ∧ DispPC.inStopSend = DispPC.inStopSend :=
  ⟨shutdown_self_send_deadlock.1,
    shutdown_self_send_deadlock.2 DispPC.inStopSend Relation.ReflTransGen.refl⟩

/-- Counterexample for claim C9 as stated: `ChannelExists` reads
`es.consumers` on its caller's task — an HTTP handler goroutine, not the
dispatcher — while the dispatcher task is running, so it is false that no
task other than the dispatcher ever reads the map: the four query
operations race unsynchronized against the dispatcher's writes. -/
theorem map_read_outside_dispatcher :
    (⟨"ChannelExists", .httpHandler 0, .read, .afterDispatcherStart⟩ : MapAccess) ∈
        consumersMapAccesses ∧
      GoTask.httpHandler 0 ≠ GoTask.dispatcher ∧
      ¬ ∀ a ∈ consumersMapAccesses, a.task = GoTask.dispatcher := by
  refine ⟨by decide, by decide, ?_⟩
  intro h
  have := h ⟨"ChannelExists", .httpHandler 0, .read, .afterDispatcherStart⟩ (by decide)
  cases this

/-- Claim C9 as amended: once the dispatcher task has started, every write
access to the topic map is performed by the dispatcher task (the map is
exclusively mutated by the dispatcher, and the only pre-start write is the
initialisation in `New`, ordered before the task starts by the `go`
statement); however the four query operations read the map directly on
their caller's task, unsynchronized with the dispatcher's writes. -/
theorem map_writes_dispatcher_only :
    (consumersMapAccesses.all (fun a =>
      decide (a.kind = AccessKind.write → a.phase = Phase.afterDispatcherStart →
        a.task = GoTask.dispatcher)) = true) ∧
    (consumersMapAccesses.any (fun a =>
      decide (a.kind = AccessKind.read ∧ a.task ≠ GoTask.dispatcher)) = true) := by
  exact ⟨by decide, by decide⟩
